import Mathlib

/-!
Verification development for the chunked streaming ingestion and
record-reassembly engine of `comfforts/cloudstorage`.

The embedding models, from the source:

* the relevant behaviour of Go `encoding/csv` (`csv.Reader.Read` with
  `Comma = '|'`, `FieldsPerRecord = -1`, and `InputOffset`), restricted to
  inputs free of carriage returns and of quoted (quote-initial) fields —
  the spec declares rich CSV dialect support out of scope. A bare quote
  character inside a field is a parse error, as in Go
  (`csv.ErrBareQuote`);
* `readCSVRecord` (cloudstorage.go lines 853–875);
* the per-chunk loop and carry-buffer logic of `processCSVStreamRecord`
  (cloudstorage.go lines 738–851), with the chunk channel shallowly
  embedded as a list of chunks and the `fmt.Printf` diagnostics dropped;
  calls of the record handler `processCSVRecord` and error reports are
  the observable events;
* the chunk-producer read loops of `readFileChunks` and
  `readFileChunksGCP` (lines 669–712 and 581–617; the two loops are
  textually identical up to the positional-read capability, which is
  abstracted as a function from offsets to read outcomes);
* `NewCloudFileRequest`, and the file-name guards of `UploadFile` and
  `DownloadFile`.

Bytes are modelled as `Char` (all inputs of interest are ASCII text).
Loops are given as structural recursion on an explicit fuel argument so
that every definition is kernel-computable; the fuel passed by the
wrappers (`length + 1`) is provably sufficient because each successful
csv read consumes at least one byte.
-/

deriving instance DecidableEq for Except

namespace CloudStorage

/-! ### Model of Go `encoding/csv` reading (restricted as described above) -/

/-- Outcome of one `csv.Reader.Read` call: end of input, a parse error
(bare quote), or a record together with the number of input bytes the
reader consumed for it (including any skipped blank lines and the
trailing newline, matching the advance of `InputOffset`). -/
inductive CsvReadResult where
  | eofR
  | errR
  | okR (rec : List String) (consumed : Nat)
  deriving DecidableEq, Repr

/-- Fields of one csv line (the line content, without its trailing
newline): split on the configured comma `'|'`. -/
def parseFields (content : List Char) : List String :=
  (content.splitOn '|').map (fun f => String.mk f)

/-- True when some field of the line contains a quote character; Go
reports `ErrBareQuote` for a bare quote in a non-quoted field. -/
def hasBareQuote (content : List Char) : Bool :=
  (content.splitOn '|').any (fun f => f.contains '\"')

/-- One `csv.Reader.Read` from the given remaining input. Blank lines
(a lone newline) are skipped; a final line without a trailing newline is
returned as a record with no error (the next read reports end of input),
exactly as Go's `readLine` converts `io.EOF` on a non-empty partial
line. -/
def csvRead : List Char → CsvReadResult
  | [] => CsvReadResult.eofR
  | '\n' :: rest =>
    match csvRead rest with
    | CsvReadResult.okR r n => CsvReadResult.okR r (n + 1)
    | other => other
  | l =>
    let content := l.takeWhile (fun c => c ≠ '\n')
    let consumed := if content.length < l.length then content.length + 1 else content.length
    if hasBareQuote content then CsvReadResult.errR
    else CsvReadResult.okR (parseFields content) consumed

/-- Model of `readCSVRecord` (cloudstorage.go 853–875): read records
until end of input; a non-EOF read error makes the whole call fail (the
call sites only branch on the error, so the partial record list returned
by Go alongside the error is dropped). Fuel `data.length + 1` suffices
since every successful read consumes at least one byte. -/
def readCSVRecordAux : Nat → List Char → List (List String) → Except Unit (List (List String))
  | 0, _, acc => Except.ok acc.reverse
  | fuel + 1, data, acc =>
    match csvRead data with
    | CsvReadResult.eofR => Except.ok acc.reverse
    | CsvReadResult.errR => Except.error ()
    | CsvReadResult.okR r n => readCSVRecordAux fuel (data.drop n) (r :: acc)

/-- See `readCSVRecordAux`. -/
def readCSVRecord (data : List Char) : Except Unit (List (List String)) :=
  readCSVRecordAux (data.length + 1) data []

/-! ### Model of `processCSVStreamRecord` (cloudstorage.go 738–851) -/

/-- Observable events of the reassembler: a call of the record handler
`processCSVRecord` with a reassembled record, a reported parse error, or
the out-of-range index `recs[0]` on an empty record list (Go would
panic; unreachable for quote-free carries, kept for faithfulness). -/
inductive Evt where
  | emit (r : List String)
  | reportError
  | crash
  deriving DecidableEq, Repr

/-- Events produced when a byte run is handed to `readCSVRecord` and, on
success, its first record `recs[0]` is passed to the record handler.
This is the shape both of the dangling-record reconstruction
(cloudstorage.go 800–810) and of the end-of-stream flush (831–841). -/
def reconEvents (cr : List Char) : List Evt :=
  match readCSVRecord cr with
  | Except.error _ => [Evt.reportError]
  | Except.ok [] => [Evt.crash]
  | Except.ok (r :: _) => [Evt.emit r]

/-- The per-chunk read loop of `processCSVStreamRecord`
(cloudstorage.go 760–824). Arguments after the chunk `c`: fuel, the
carry buffer `incompleteRecord`, `bufOffset` (the csv reader's
`InputOffset`, equal to the reader position), and `recCnt`. Each
iteration reads one record from `c.drop bufOffset`; `lastOffset` of the
source is `bufOffset` before the read. On end of input or a read error
the loop stops (765–778). A successful record is classified by
`(bufOffset' == len(c) && lastOffset < bufOffset') || len(record) < 8`
(783): normal records are emitted (816–823); a dangling record on the
chunk's first read (`recCnt == 1`) triggers reconstruction from
`carry ++ c[:bufOffset']` and clears the carry (786–810); otherwise the
carry becomes `c[lastOffset:]` and the loop continues (811–815). -/
def chunkLoopAux (c : List Char) : Nat → List Char → Nat → Nat → List Evt × List Char
  | 0, carry, _, _ => ([], carry)
  | fuel + 1, carry, bufOffset, recCnt =>
    match csvRead (c.drop bufOffset) with
    | CsvReadResult.eofR => ([], carry)
    | CsvReadResult.errR => ([], carry)
    | CsvReadResult.okR rec n =>
      if (bufOffset + n = c.length ∧ bufOffset < bufOffset + n) ∨ rec.length < 8 then
        if recCnt + 1 = 1 then
          let rest := chunkLoopAux c fuel [] (bufOffset + n) (recCnt + 1)
          (reconEvents (carry ++ c.take (bufOffset + n)) ++ rest.1, rest.2)
        else
          chunkLoopAux c fuel (c.drop bufOffset) (bufOffset + n) (recCnt + 1)
      else
        let rest := chunkLoopAux c fuel carry (bufOffset + n) (recCnt + 1)
        (Evt.emit rec :: rest.1, rest.2)

/-- Processing of one chunk received from the channel: run the read
loop from offset 0 with the inherited carry buffer. Fuel
`c.length + 1` suffices since every successful csv read consumes at
least one byte of the chunk. Returns the events and the carry buffer
left for the next chunk. -/
def processChunk (carry c : List Char) : List Evt × List Char :=
  chunkLoopAux c (c.length + 1) carry 0 0

/-- The channel loop of `processCSVStreamRecord` before closure: chunks
arrive in order, each processed by `processChunk` with the carry
threaded through. Returns all events and the final carry buffer. -/
def runChunks : List Char → List (List Char) → List Evt × List Char
  | carry, [] => ([], carry)
  | carry, c :: cs =>
    let p := processChunk carry c
    let r := runChunks p.2 cs
    (p.1 ++ r.1, r.2)

/-- Channel-closure handling (cloudstorage.go 826–845): if the carry
buffer is non-empty it is parsed once as a standalone record run; on
success `recs[0]` goes to the record handler, on failure one error is
reported; then the function returns. -/
def flushCarry (carry : List Char) : List Evt :=
  if carry = [] then [] else reconEvents carry

/-- Full run of `processCSVStreamRecord` on a chunk sequence: process
every chunk in order, then handle channel closure. -/
def processCSVStreamRecord (chunks : List (List Char)) : List Evt :=
  let r := runChunks [] chunks
  r.1 ++ flushCarry r.2

/-- The records handed to the record handler, in order. -/
def emittedRecords (evts : List Evt) : List (List String) :=
  evts.filterMap (fun e => match e with | Evt.emit r => some r | _ => none)

/-- One-pass parse of a whole byte stream with the repository's own
record parser `readCSVRecord` (same delimiter): the record sequence the
spec's boundary-independence property compares against. -/
def onePassRecords (s : List Char) : List (List String) :=
  match readCSVRecord s with
  | Except.ok rs => rs
  | Except.error _ => []

/-- The fixed-size chunking performed by the producer loops: successive
windows of `k` bytes, the last one partial (`readFileChunks`, with
`BUFFER_SIZE = k`). Fuel `s.length + 1` suffices for `k ≥ 1`. -/
def chunksOfAux : Nat → Nat → List Char → List (List Char)
  | 0, _, _ => []
  | _ + 1, _, [] => []
  | fuel + 1, k, s => s.take k :: chunksOfAux fuel k (s.drop k)

/-- See `chunksOfAux`. -/
def chunksOf (k : Nat) (s : List Char) : List (List Char) :=
  chunksOfAux (s.length + 1) k s

/-- The scenario stream of spec §8: two `'|'`-delimited records
terminated by newlines. Its length is 8 bytes. -/
def scenStream : List Char := "a|b\nc|d\n".toList

/-! ### Model of the chunk-producer read loops
(`readFileChunks`, cloudstorage.go 669–712, and `readFileChunksGCP`,
581–617; the two loops are identical up to the positional-read
capability). -/

/-- Outcome of one positional read `ReadAt(buf, offset)`: a full
successful read of the returned bytes (`err == nil`), end of stream
together with the bytes still read (`err == io.EOF`, `n` may be 0), or
a read error other than end of stream. -/
inductive ReadRes where
  | rOk (c : List Char)
  | rEof (c : List Char)
  | rErr
  deriving Repr

/-- Actions of the producer goroutine observable on the conduit:
publishing a chunk, and closing the conduit (the deferred
`close(chnkStream)`). -/
inductive PAction where
  | publish (c : List Char)
  | closeConduit
  deriving DecidableEq, Repr

/-- The producer read loop (cloudstorage.go 687–711): read at the
current offset; on a non-EOF error break; on EOF publish the last
partial chunk when `n > 0` and break; on a zero-byte read break;
otherwise publish the chunk, advance the offset by `n` and continue.
`none` models a non-terminating run (the capability keeps returning
data beyond the fuel). -/
def chunkLoopSrc (cap : Nat → ReadRes) : Nat → Nat → Option (List PAction)
  | 0, _ => none
  | fuel + 1, offset =>
    match cap offset with
    | ReadRes.rErr => some []
    | ReadRes.rEof c => some (if 0 < c.length then [PAction.publish c] else [])
    | ReadRes.rOk c =>
      if c.length = 0 then some []
      else (chunkLoopSrc cap fuel (offset + c.length)).map
        (fun t => PAction.publish c :: t)

/-- A full terminating run of the producer goroutine: the loop's
publications followed by the deferred close of the conduit, which runs
on every exit path of the goroutine. -/
def readFileChunksTrace (cap : Nat → ReadRes) (fuel : Nat) : Option (List PAction) :=
  (chunkLoopSrc cap fuel 0).map (fun t => t ++ [PAction.closeConduit])

/-- The positional-read capability of a concrete byte source, as
implemented by `os.File.ReadAt` (and the GCS object reader): a read at
`off` returns the next `bufSize` bytes; when fewer remain it returns
them together with end of stream. -/
def fileCap (data : List Char) (bufSize : Nat) : Nat → ReadRes :=
  fun off =>
    if ((data.drop off).take bufSize).length < bufSize
    then ReadRes.rEof ((data.drop off).take bufSize)
    else ReadRes.rOk ((data.drop off).take bufSize)

/-- Capability for the C7 witness: one full 2-byte read, then end of
stream with one final byte. -/
def capDataW : Nat → ReadRes :=
  fun off => if off = 0 then ReadRes.rOk ['a', 'b'] else ReadRes.rEof ['c']

/-- Capability for the C7 witness: immediate non-EOF read error. -/
def capErrW : Nat → ReadRes := fun _ => ReadRes.rErr

/-- Capability for the C7 witness: zero-byte successful read. -/
def capZeroW : Nat → ReadRes := fun _ => ReadRes.rOk []

/-! ### Model of `CloudFileRequest` construction and the transfer guards -/

/-- The two request-validation errors relevant here
(constants.go: `ErrBucketNameMissing`, `ErrFileNameMissing`). -/
inductive StorageErr where
  | bucketNameMissing
  | fileNameMissing
  deriving DecidableEq, Repr

/-- Model of `CloudFileRequest` (cloudstorage.go 220–225). -/
structure CloudFileRequest where
  bucket : String
  file : String
  path : String
  modTime : Int
  deriving DecidableEq, Repr

/-- Model of `NewCloudFileRequest` (cloudstorage.go 228–238). -/
def NewCloudFileRequest (bucketName fileName path : String) (modTime : Int) :
    Except StorageErr CloudFileRequest :=
  if bucketName = "" then Except.error StorageErr.bucketNameMissing
  else Except.ok ⟨bucketName, fileName, path, modTime⟩

/-- Model of `UploadFile` (cloudstorage.go 64–99): the empty-file-name
guard returns `ErrFileNameMissing` before any storage interaction; the
remainder of the function (the actual transfer against the GCS SDK) is
abstracted as `transferResult`, which is only reached when the guard
passes. -/
def UploadFile (cfr : CloudFileRequest) (transferResult : Except StorageErr Int) :
    Except StorageErr Int :=
  if cfr.file = "" then Except.error StorageErr.fileNameMissing else transferResult

/-- Model of `DownloadFile` (cloudstorage.go 101–140), abstracted the
same way as `UploadFile`. -/
def DownloadFile (cfr : CloudFileRequest) (transferResult : Except StorageErr Int) :
    Except StorageErr Int :=
  if cfr.file = "" then Except.error StorageErr.fileNameMissing else transferResult

/-! ### Helper lemmas -/

/-- A stream no longer than the buffer size is produced as a single
chunk. -/
theorem chunksOf_of_length_le (k : Nat) (s : List Char) (hne : s ≠ [])
    (hlen : s.length ≤ k) : chunksOf k s = [s] := by
  cases s with
  | nil => exact absurd rfl hne
  | cons a as =>
    have h1 : chunksOf k (a :: as)
        = (a :: as).take k :: chunksOfAux (as.length + 1) k ((a :: as).drop k) := rfl
    rw [h1, List.take_of_length_le hlen, List.drop_of_length_le hlen]
    rfl

/-- Every step of the per-chunk loop leaves the carry buffer untouched,
clears it, or replaces it with a suffix of the current chunk. -/
theorem chunkLoopAux_carry_cases (c : List Char) :
    ∀ (fuel : Nat) (carry : List Char) (b k : Nat),
      (chunkLoopAux c fuel carry b k).2 = carry ∨
      (chunkLoopAux c fuel carry b k).2 = [] ∨
      ∃ i, (chunkLoopAux c fuel carry b k).2 = c.drop i := by
  intro fuel
  induction fuel with
  | zero => intro carry b k; exact Or.inl rfl
  | succ fuel ih =>
    intro carry b k
    rw [chunkLoopAux]
    split
    · exact Or.inl rfl
    · exact Or.inl rfl
    · rename_i rec n heq
      split_ifs with hd hk
      · rcases ih [] (b + n) (k + 1) with h | h | ⟨i, h⟩
        · exact Or.inr (Or.inl h)
        · exact Or.inr (Or.inl h)
        · exact Or.inr (Or.inr ⟨i, h⟩)
      · rcases ih (c.drop b) (b + n) (k + 1) with h | h | ⟨i, h⟩
        · exact Or.inr (Or.inr ⟨b, h⟩)
        · exact Or.inr (Or.inl h)
        · exact Or.inr (Or.inr ⟨i, h⟩)
      · exact ih carry (b + n) (k + 1)

/-- The carry buffer after any prefix of the stream is the initial
carry, empty, or a suffix of one of the received chunks. -/
theorem runChunks_carry_cases :
    ∀ (chunks : List (List Char)) (carry : List Char),
      (runChunks carry chunks).2 = carry ∨
      (runChunks carry chunks).2 = [] ∨
      ∃ c ∈ chunks, ∃ i, (runChunks carry chunks).2 = c.drop i := by
  intro chunks
  induction chunks with
  | nil => intro carry; exact Or.inl rfl
  | cons c cs ih =>
    intro carry
    have key : (runChunks carry (c :: cs)).2 = (runChunks (processChunk carry c).2 cs).2 := rfl
    rw [key]
    rcases ih (processChunk carry c).2 with h | h | ⟨c₁, hc₁, i, h⟩
    · rw [h]
      rcases chunkLoopAux_carry_cases c (c.length + 1) carry 0 0 with h₂ | h₂ | ⟨i, h₂⟩
      · exact Or.inl h₂
      · exact Or.inr (Or.inl h₂)
      · exact Or.inr (Or.inr ⟨c, List.mem_cons_self c cs, i, h₂⟩)
    · exact Or.inr (Or.inl h)
    · exact Or.inr (Or.inr ⟨c₁, List.mem_cons_of_mem c hc₁, i, h⟩)

/-- The producer loop publishes chunks only; it never closes the
conduit itself (closing is the deferred action of the goroutine). -/
theorem chunkLoopSrc_no_close (cap : Nat → ReadRes) :
    ∀ (fuel off : Nat) (t : List PAction),
      chunkLoopSrc cap fuel off = some t → PAction.closeConduit ∉ t := by
  intro fuel
  induction fuel with
  | zero => intro off t h; exact absurd h (by simp [chunkLoopSrc])
  | succ fuel ih =>
    intro off t h
    rw [chunkLoopSrc] at h
    split at h
    · cases h; simp
    · cases h
      rename_i c heq
      by_cases h0 : 0 < c.length <;> simp [h0]
    · rename_i c heq
      split at h
      · cases h; simp
      · cases ht : chunkLoopSrc cap fuel (off + c.length) with
        | none => rw [ht] at h; cases h
        | some t₀ =>
          rw [ht] at h
          cases h
          have hni := ih (off + c.length) t₀ ht
          simp [hni]

/-- Every successful csv read consumes at least one byte and at most
the remaining input. -/
theorem csvRead_bounds (l : List Char) (r : List String) (n : Nat)
    (h : csvRead l = CsvReadResult.okR r n) : 1 ≤ n ∧ n ≤ l.length := by
  induction l generalizing r n with
  | nil => exact absurd h (by simp [csvRead])
  | cons c cs ih =>
    rw [csvRead.eq_def] at h
    split at h
    · rename_i heq
      cases heq
    · rename_i rest heq
      injection heq with hc hcs
      subst hc
      subst hcs
      cases hr : csvRead cs with
      | okR r₁ n₁ =>
        rw [hr] at h
        have hb := ih r₁ n₁ hr
        injection h with h1 h2
        simp only [List.length_cons]
        omega
      | eofR => rw [hr] at h; cases h
      | errR => rw [hr] at h; cases h
    · rename_i hnil hnl
      have hcne : c ≠ '\n' := fun hcc => hnl cs (by rw [hcc])
      have hL1 : 1 ≤ ((c :: cs).takeWhile (fun x => decide (x ≠ '\n'))).length := by
        rw [List.takeWhile_cons]
        simp [hcne]
      have hL2 : ((c :: cs).takeWhile (fun x => decide (x ≠ '\n'))).length ≤ (c :: cs).length :=
        (List.takeWhile_prefix _).length_le
      dsimp only at h
      split at h
      · cases h
      · injection h with h1 h2
        split at h2 <;> omega


/-- The fuel used by `processChunk` is sufficient: one more unit of
fuel never changes the result once the fuel exceeds the remaining chunk
bytes (each successful read consumes at least one byte). -/
theorem chunkLoopAux_fuel_stable (c : List Char) :
    ∀ (fuel : Nat) (carry : List Char) (b k : Nat), c.length - b < fuel →
      chunkLoopAux c fuel carry b k = chunkLoopAux c (fuel + 1) carry b k := by
  intro fuel
  induction fuel with
  | zero => intro carry b k h; exact absurd h (Nat.not_lt_zero _)
  | succ fuel ih =>
    intro carry b k h
    rw [chunkLoopAux]
    conv_rhs => rw [chunkLoopAux]
    cases hr : csvRead (c.drop b) with
    | eofR => rfl
    | errR => rfl
    | okR rec n =>
      have hb := csvRead_bounds _ _ _ hr
      have hd2 : (c.drop b).length = c.length - b := List.length_drop _ _
      by_cases hd : (b + n = c.length ∧ b < b + n) ∨ rec.length < 8
      · by_cases hk : k + 1 = 1
        · simp only [if_pos hd, if_pos hk]
          rw [ih [] (b + n) (k + 1) (by omega)]
        · simp only [if_pos hd, if_neg hk]
          exact ih (c.drop b) (b + n) (k + 1) (by omega)
      · simp only [if_neg hd]
        rw [ih carry (b + n) (k + 1) (by omega)]

/-- Any fuel of at least `c.length + 1` computes `processChunk`. -/
theorem processChunk_fuel (carry c : List Char) (extra : Nat) :
    chunkLoopAux c (c.length + 1 + extra) carry 0 0 = processChunk carry c := by
  induction extra with
  | zero => rfl
  | succ e ih =>
    show chunkLoopAux c (c.length + 1 + e + 1) carry 0 0 = _
    rw [← chunkLoopAux_fuel_stable c (c.length + 1 + e) carry 0 0 (by omega)]
    exact ih

/-- The fuel used by `readCSVRecord` is sufficient in the same sense. -/
theorem readCSVRecordAux_fuel_stable :
    ∀ (fuel : Nat) (data : List Char) (acc : List (List String)), data.length < fuel →
      readCSVRecordAux fuel data acc = readCSVRecordAux (fuel + 1) data acc := by
  intro fuel
  induction fuel with
  | zero => intro data acc h; exact absurd h (Nat.not_lt_zero _)
  | succ fuel ih =>
    intro data acc h
    rw [readCSVRecordAux]
    conv_rhs => rw [readCSVRecordAux]
    cases hr : csvRead data with
    | eofR => rfl
    | errR => rfl
    | okR r n =>
      have hb := csvRead_bounds _ _ _ hr
      have hd2 : (data.drop n).length = data.length - n := List.length_drop _ _
      exact ih (data.drop n) (r :: acc) (by omega)

/-- Any fuel of at least `data.length + 1` computes `readCSVRecord`. -/
theorem readCSVRecord_fuel (data : List Char) (extra : Nat) :
    readCSVRecordAux (data.length + 1 + extra) data [] = readCSVRecord data := by
  induction extra with
  | zero => rfl
  | succ e ih =>
    show readCSVRecordAux (data.length + 1 + e + 1) data [] = _
    rw [← readCSVRecordAux_fuel_stable (data.length + 1 + e) data [] (by omega)]
    exact ih

/-- Any two sufficient fuels give the same chunking (for a positive
buffer size). -/
theorem chunksOfAux_fuel_eq (k : Nat) (hk : 1 ≤ k) :
    ∀ (n : Nat) (s : List Char), s.length ≤ n → ∀ (f₁ f₂ : Nat),
      s.length < f₁ → s.length < f₂ → chunksOfAux f₁ k s = chunksOfAux f₂ k s := by
  intro n
  induction n with
  | zero =>
    intro s hs f₁ f₂ h1 h2
    have hse : s = [] := List.length_eq_zero.mp (Nat.le_zero.mp hs)
    subst hse
    cases f₁ with
    | zero => exact absurd h1 (Nat.not_lt_zero _)
    | succ f₁ =>
      cases f₂ with
      | zero => exact absurd h2 (Nat.not_lt_zero _)
      | succ f₂ => rfl
  | succ n ih =>
    intro s hs f₁ f₂ h1 h2
    cases s with
    | nil =>
      cases f₁ with
      | zero => exact absurd h1 (Nat.not_lt_zero _)
      | succ f₁ =>
        cases f₂ with
        | zero => exact absurd h2 (Nat.not_lt_zero _)
        | succ f₂ => rfl
    | cons a as =>
      cases f₁ with
      | zero => exact absurd h1 (Nat.not_lt_zero _)
      | succ f₁ =>
        cases f₂ with
        | zero => exact absurd h2 (Nat.not_lt_zero _)
        | succ f₂ =>
          show (a :: as).take k :: chunksOfAux f₁ k ((a :: as).drop k)
              = (a :: as).take k :: chunksOfAux f₂ k ((a :: as).drop k)
          have hd : ((a :: as).drop k).length = (a :: as).length - k := List.length_drop _ _
          have hlc : (a :: as).length = as.length + 1 := List.length_cons _ _
          congr 1
          apply ih ((a :: as).drop k) (by omega) f₁ f₂ (by omega) (by omega)

/-- Any sufficient fuel computes `chunksOf`. -/
theorem chunksOfAux_fuel (k : Nat) (hk : 1 ≤ k) (s : List Char) (f : Nat)
    (hf : s.length < f) : chunksOfAux f k s = chunksOf k s :=
  chunksOfAux_fuel_eq k hk s.length s (Nat.le_refl _) f (s.length + 1) hf
    (Nat.lt_succ_self _)


/-- Over a concrete byte source the producer loop publishes exactly the
fixed-size chunking of the remaining bytes: the loop, `chunksOf`, and
the reassembler all agree on what the chunk sequence of a stream is. -/
theorem chunkLoopSrc_fileCap (k : Nat) (hk : 1 ≤ k) :
    ∀ (fuel : Nat) (data : List Char) (off : Nat), data.length - off < fuel * k →
      chunkLoopSrc (fileCap data k) fuel off =
        some ((chunksOf k (data.drop off)).map PAction.publish) := by
  intro fuel
  induction fuel with
  | zero =>
    intro data off h
    exact absurd h (by omega)
  | succ fuel ih =>
    intro data off h
    have hdl : (data.drop off).length = data.length - off := List.length_drop _ _
    have htl : ((data.drop off).take k).length = min k (data.drop off).length :=
      List.length_take _ _
    rw [chunkLoopSrc]
    by_cases hlt : ((data.drop off).take k).length < k
    · have hcap : fileCap data k off = ReadRes.rEof ((data.drop off).take k) := by
        rw [fileCap]
        exact if_pos hlt
      rw [hcap]
      have hrest : (data.drop off).length < k := by omega
      have htake : (data.drop off).take k = data.drop off :=
        List.take_of_length_le (Nat.le_of_lt hrest)
      rw [htake]
      by_cases hnil : data.drop off = []
      · rw [hnil]
        rfl
      · have hchunks : chunksOf k (data.drop off) = [data.drop off] :=
          chunksOf_of_length_le k _ hnil (Nat.le_of_lt hrest)
        rw [hchunks]
        have hpos : 0 < (data.drop off).length := List.length_pos.mpr hnil
        simp only [if_pos hpos]
        rfl
    · have hge : k ≤ ((data.drop off).take k).length := Nat.le_of_not_lt hlt
      have hlen : ((data.drop off).take k).length = k := by omega
      have hLge : k ≤ (data.drop off).length := by omega
      have hcap : fileCap data k off = ReadRes.rOk ((data.drop off).take k) := by
        rw [fileCap]
        exact if_neg hlt
      rw [hcap]
      have hkne : ¬ (k = 0) := by omega
      simp only [hlen, if_neg hkne]
      rw [ih data (off + k) (by
        have hmul : (fuel + 1) * k = fuel * k + k := by ring
        omega)]
      have hdd : data.drop (off + k) = (data.drop off).drop k := by
        rw [List.drop_drop]
      have hrne : data.drop off ≠ [] := by
        intro hcc
        rw [hcc] at hLge
        simp at hLge
        omega
      have hexp : chunksOf k (data.drop off) =
          (data.drop off).take k :: chunksOfAux ((data.drop off).length) k ((data.drop off).drop k) := by
        cases hrest : data.drop off with
        | nil => exact absurd hrest hrne
        | cons a as =>
          show chunksOfAux ((a :: as).length + 1) k (a :: as) = _
          have hstep : chunksOfAux (as.length + 1 + 1) k (a :: as)
              = (a :: as).take k :: chunksOfAux (as.length + 1) k ((a :: as).drop k) := rfl
          simp only [List.length_cons]
          rw [hstep]
      have hsuffix : chunksOfAux ((data.drop off).length) k ((data.drop off).drop k) =
          chunksOf k ((data.drop off).drop k) := by
        apply chunksOfAux_fuel k hk
        have := List.length_drop k (data.drop off)
        have hpos : 0 < (data.drop off).length := List.length_pos.mpr hrne
        omega
      rw [hexp, hsuffix, hdd]
      rfl

/-- The full producer run over a concrete byte source: the trace is the
publication of every chunk of the fixed-size chunking of the stream, in
order, followed by the single conduit close. -/
theorem readFileChunksTrace_fileCap (k : Nat) (hk : 1 ≤ k) (data : List Char)
    (fuel : Nat) (hf : data.length < fuel * k) :
    readFileChunksTrace (fileCap data k) fuel =
      some ((chunksOf k data).map PAction.publish ++ [PAction.closeConduit]) := by
  rw [readFileChunksTrace, chunkLoopSrc_fileCap k hk fuel data 0 (by omega)]
  rfl

/-! ### Claims -/

/-- C1, counterexample: boundary independence fails as stated. For the
spec's own scenario stream, chunking at 1 byte makes the reassembler
emit a record sequence different from the one-pass parse of the stream
(the first emission is the truncated record made of the first byte
alone, because the reconstruction branch fires on the chunk's first
record even though the carry is empty). -/
theorem c1_counterexample :
    emittedRecords (processCSVStreamRecord (chunksOf 1 scenStream)) ≠
      onePassRecords scenStream := by decide

/-- C1, amended: boundary independence does not hold for every stream
and chunk size; for the scenario stream `a|b\nc|d\n` it holds exactly
from chunk size 4 up — every fixed chunk size of at least 4 bytes makes
the reassembler (including the end-of-stream flush) emit the same
ordered record sequence as the one-pass parse. -/
theorem c1_claim (k : Nat) (hk : 4 ≤ k) :
    emittedRecords (processCSVStreamRecord (chunksOf k scenStream)) =
      onePassRecords scenStream := by
  rcases Nat.lt_or_ge k 8 with h8 | h8
  · interval_cases k <;> decide
  · have hlen : scenStream.length = 8 := by decide
    have hs : chunksOf k scenStream = [scenStream] :=
      chunksOf_of_length_le k scenStream (by decide) (by rw [hlen]; exact h8)
    rw [hs]; decide

/-- C1, witness for the amended theorem at chunk size 4. -/
theorem c1_witness :
    emittedRecords (processCSVStreamRecord (chunksOf 4 scenStream)) =
      onePassRecords scenStream :=
  c1_claim 4 (by decide)

/-- C2, counterexample: on a dangling first record with an *empty*
carry buffer, the claim predicts no emission and the unconsumed suffix
stored as carry; the code instead reconstructs from the empty carry and
emits. Chunk `a|b\n` with empty carry: the record `[a,b]` ends flush
with the chunk (dangling classification), yet it is emitted and the
carry stays empty — in particular the result differs from the
claim-predicted `([], "a|b\n")`. -/
theorem c2_counterexample :
    processChunk [] ("a|b\n".toList) = ([Evt.emit ["a", "b"]], []) ∧
      processChunk [] ("a|b\n".toList) ≠ ([], "a|b\n".toList) := by
  refine ⟨by decide, by decide⟩

/-- C2, amended: when the *first* parse attempt on a chunk (record
count == 1) is classified dangling, the reassembler always reconstructs
— regardless of whether a carry from the previous chunk exists. It
concatenates carry (possibly empty) with the chunk's bytes up to
`bufOffset`, parses that run, emits its first record on success (or
reports an error), and clears the carry; only a dangling record with
record count ≥ 2 stores the unconsumed suffix as the new carry without
emitting. -/
theorem c2_claim (c carry : List Char) (rec : List String) (n : Nat)
    (h : csvRead c = CsvReadResult.okR rec n)
    (hd : (n = c.length ∧ 0 < n) ∨ rec.length < 8) :
    processChunk carry c =
      (reconEvents (carry ++ c.take n) ++ (chunkLoopAux c c.length [] n 1).1,
       (chunkLoopAux c c.length [] n 1).2) := by
  show chunkLoopAux c (c.length + 1) carry 0 0 = _
  rw [chunkLoopAux, List.drop_zero, h]
  simp only [Nat.zero_add, if_pos hd]
  simp

/-- C2, witness: the amended theorem applied to chunk `a|b\n` with the
non-empty carry `x`; the reconstruction parses `xa|b\n` and emits
`[xa, b]`. -/
theorem c2_witness :
    processChunk ("x".toList) ("a|b\n".toList) = ([Evt.emit ["xa", "b"]], []) := by
  have h := c2_claim ("a|b\n".toList) ("x".toList) ["a", "b"] 4 (by decide) (by decide)
  rw [h]; decide

/-- C3, counterexample: after the dangling record `[x]` (record count
2) stores the suffix `x\np|…|w\nz\n` as carry, the code does *not* stop:
it parses and emits the later record `[p,…,w]` and then overwrites the
carry with `z\n`. The claim predicts no further parse attempts and the
carry left as the suffix from offset 16. -/
theorem c3_counterexample :
    processChunk [] ("a|b|c|d|e|f|g|h\nx\np|q|r|s|t|u|v|w\nz\n".toList) =
        ([Evt.emit ["a", "b", "c", "d", "e", "f", "g", "h"],
          Evt.emit ["p", "q", "r", "s", "t", "u", "v", "w"]], "z\n".toList) ∧
      (processChunk [] ("a|b|c|d|e|f|g|h\nx\np|q|r|s|t|u|v|w\nz\n".toList)).2 ≠
        ("a|b|c|d|e|f|g|h\nx\np|q|r|s|t|u|v|w\nz\n".toList).drop 16 := by
  refine ⟨by decide, by decide⟩

/-- C3, amended: a dangling record detected on a later parse attempt
(record count ≥ 2) copies the unconsumed suffix `chunk[lastOffset:]`
into the carry buffer and *continues* the loop at the next offset —
later records of the chunk may still be parsed, emitted, or overwrite
the carry; processing stops only at end of input or a parse error. (In
the particular case where the dangling record abuts the chunk end the
next read hits end of input, so processing does stop there.) -/
theorem c3_claim (c carry : List Char) (rec : List String) (n b k fuel : Nat)
    (h : csvRead (c.drop b) = CsvReadResult.okR rec n)
    (hd : (b + n = c.length ∧ b < b + n) ∨ rec.length < 8)
    (hk : k ≠ 0) :
    chunkLoopAux c (fuel + 1) carry b k =
      chunkLoopAux c fuel (c.drop b) (b + n) (k + 1) := by
  rw [chunkLoopAux, h]
  simp only [if_pos hd, if_neg (show ¬ (k + 1 = 1) by omega)]

/-- C3, witness: the amended theorem at the counterexample chunk, state
after the dangling second record; the continued loop emits `[p,…,w]`
and leaves carry `z\n`. -/
theorem c3_witness :
    chunkLoopAux ("a|b|c|d|e|f|g|h\nx\np|q|r|s|t|u|v|w\nz\n".toList) 21 [] 16 1 =
      ([Evt.emit ["p", "q", "r", "s", "t", "u", "v", "w"]], "z\n".toList) := by
  have h := c3_claim ("a|b|c|d|e|f|g|h\nx\np|q|r|s|t|u|v|w\nz\n".toList) [] ["x"] 2 16 1 20
    (by decide) (by decide) (by decide)
  rw [h]; decide

/-- C4: the mid-record-split scenario is violated by the code. For the
stream `a|b\nc|d\n` delivered in 3-byte chunks `a|b`, `\nc|`, `d\n`,
the code emits `[a,b]`, then `[c,""]`, then `[d]` — not `[a,b]` then
`[c,d]`: the trailing record of the first chunk is emitted prematurely
by the empty-carry reconstruction branch, so the split record `c|d` is
never reassembled. This evaluates the code at the failing input. -/
theorem c4_claim :
    chunksOf 3 scenStream = ["a|b".toList, "\nc|".toList, "d\n".toList] ∧
      processCSVStreamRecord (chunksOf 3 scenStream) =
        [Evt.emit ["a", "b"], Evt.emit ["c", ""], Evt.emit ["d"]] := by
  refine ⟨by decide, by decide⟩

/-- C5, counterexample: the stream `a|b\nc|d\n` has 8 bytes, not 12 as
the claim states. -/
theorem c5_counterexample : ¬ scenStream.length = 12 := by decide

/-- C5, amended: for the 8-byte stream `a|b\nc|d\n` delivered in fixed
chunks of 4 bytes (each chunk ending exactly on a record boundary), the
reassembler emits exactly `[a,b]` then `[c,d]`, and the carry buffer is
empty at stream end (so the flush adds nothing). -/
theorem c5_claim :
    processCSVStreamRecord (chunksOf 4 scenStream) =
        [Evt.emit ["a", "b"], Evt.emit ["c", "d"]] ∧
      (runChunks [] (chunksOf 4 scenStream)).2 = [] := by
  refine ⟨by decide, by decide⟩


/-- C6: on conduit closure, a non-empty carry buffer is parsed exactly
once as a standalone record run: on success its first record is emitted
to the record handler, on failure one error is reported without retry,
and in either case exactly one event is produced before termination; an
empty carry at closure emits nothing. The flush events follow all
per-chunk events of the run. -/
theorem c6_claim (chunks : List (List Char)) (carry : List Char) :
    processCSVStreamRecord chunks =
        (runChunks [] chunks).1 ++ flushCarry (runChunks [] chunks).2
      ∧ flushCarry [] = []
      ∧ (carry ≠ [] →
          flushCarry carry =
            match readCSVRecord carry with
            | Except.error _ => [Evt.reportError]
            | Except.ok [] => [Evt.crash]
            | Except.ok (r :: _) => [Evt.emit r])
      ∧ (carry ≠ [] → (flushCarry carry).length = 1) := by
  refine ⟨rfl, rfl, ?_, ?_⟩
  · intro hne
    rw [flushCarry, if_neg hne]
    rfl
  · intro hne
    rw [flushCarry, if_neg hne, reconEvents]
    cases readCSVRecord carry with
    | error e => rfl
    | ok rs =>
      cases rs with
      | nil => rfl
      | cons r rs => rfl

/-- C6, witness: a run whose final carry `y\n` flushes to the emission
of `[y]`, and a carry with a bare quote whose flush reports one
error. -/
theorem c6_witness :
    processCSVStreamRecord ["x\ny\n".toList] = [Evt.emit ["x"], Evt.emit ["y"]]
    ∧ flushCarry ("y\n".toList) = [Evt.emit ["y"]]
    ∧ flushCarry ['a', '\"', 'b'] = [Evt.reportError] := by
  refine ⟨?_, ?_, ?_⟩
  · have h := (c6_claim ["x\ny\n".toList] ("y\n".toList)).1
    rw [h]; decide
  · have h := (c6_claim [] ("y\n".toList)).2.2.1 (by decide)
    rw [h]; decide
  · have h := (c6_claim [] ['a', '\"', 'b']).2.2.1 (by decide)
    rw [h]; decide

/-- C7: in every terminating run of a chunk producer loop (local or
GCP, both share this loop over an abstract positional-read capability),
the conduit is closed exactly once, as the last action, after all
publications; a final read returning end of stream together with
`n > 0` bytes publishes exactly that last partial chunk before the
loop exits (and hence before the close); a read error other than end of
stream, and a zero-byte successful read, abort the loop with no further
publication — the deferred close still runs. -/
theorem c7_claim (cap : Nat → ReadRes) (fuel off : Nat) (t : List PAction)
    (c : List Char) :
    (readFileChunksTrace cap fuel = some t →
        t.count PAction.closeConduit = 1 ∧ t.getLast? = some PAction.closeConduit)
    ∧ (cap off = ReadRes.rEof c → 0 < c.length →
        chunkLoopSrc cap (fuel + 1) off = some [PAction.publish c])
    ∧ (cap off = ReadRes.rErr → chunkLoopSrc cap (fuel + 1) off = some [])
    ∧ (cap off = ReadRes.rOk [] → chunkLoopSrc cap (fuel + 1) off = some []) := by
  refine ⟨?_, ?_, ?_, ?_⟩
  · intro h
    rw [readFileChunksTrace] at h
    rcases Option.map_eq_some'.mp h with ⟨t₀, ht₀, hteq⟩
    have hn := chunkLoopSrc_no_close cap fuel 0 t₀ ht₀
    constructor
    · rw [← hteq, List.count_append, List.count_eq_zero.mpr hn]
      rfl
    · rw [← hteq]
      simp
  · intro hc hlen
    rw [chunkLoopSrc, hc]
    simp [hlen]
  · intro hc
    rw [chunkLoopSrc, hc]
  · intro hc
    rw [chunkLoopSrc, hc]
    rfl

/-- C7, witness: the full trace for `capDataW` closes once and last;
the end-of-stream read at offset 2 publishes the final partial chunk;
error and zero-byte reads abort with no publication. -/
theorem c7_witness :
    (([PAction.publish ['a', 'b'], PAction.publish ['c'],
        PAction.closeConduit] : List PAction).count PAction.closeConduit = 1
      ∧ ([PAction.publish ['a', 'b'], PAction.publish ['c'],
          PAction.closeConduit] : List PAction).getLast? = some PAction.closeConduit)
    ∧ chunkLoopSrc capDataW 1 2 = some [PAction.publish ['c']]
    ∧ chunkLoopSrc capErrW 1 0 = some []
    ∧ chunkLoopSrc capZeroW 1 0 = some [] := by
  refine ⟨?_, ?_, ?_, ?_⟩
  · exact (c7_claim capDataW 3 0
      [PAction.publish ['a', 'b'], PAction.publish ['c'], PAction.closeConduit] []).1 rfl
  · exact (c7_claim capDataW 0 2 [] ['c']).2.1 rfl (by decide)
  · exact (c7_claim capErrW 0 0 [] []).2.2.1 rfl
  · exact (c7_claim capZeroW 0 0 [] []).2.2.2 rfl

/-- C8, counterexample: the carry buffer can exceed the length of the
most recently received chunk. After the 36-byte first chunk leaves a
20-byte dangling suffix as carry, the 17-byte second chunk parses
entirely through the normal path and never touches the carry, so the
20-byte carry survives a 17-byte chunk. -/
theorem c8_counterexample :
    ("a|b|c|d|e|f|g|h\n\n".toList).length <
      ((runChunks [] ["p|q|r|s|t|u|v|w\nBBBBBBBBBBBBBBBBBBBB".toList,
          "a|b|c|d|e|f|g|h\n\n".toList]).2).length := by decide

/-- C8, amended: at every point during stream processing the carry
buffer is either empty or a suffix of *some* previously received chunk
(every operation on it clears it or replaces it with a suffix of the
current chunk); it is not bounded by the most recent chunk's length,
because a chunk whose records all take the normal path leaves the carry
untouched. -/
theorem c8_claim (chunks : List (List Char)) :
    (runChunks [] chunks).2 = [] ∨
      ∃ c ∈ chunks, ∃ i, (runChunks [] chunks).2 = c.drop i := by
  rcases runChunks_carry_cases chunks [] with h | h | h
  · exact Or.inl h
  · exact Or.inl h
  · exact Or.inr h

/-- C9: a successfully parsed record with fewer than 8 fields is never
emitted through the normal complete-record path, wherever it ends
inside the chunk: the step always takes the dangling branch — carry
reconstruction when it is the chunk's first record, otherwise storing
`chunk[lastOffset:]` as the carry. -/
theorem c9_claim (c carry : List Char) (rec : List String) (n b k fuel : Nat)
    (h : csvRead (c.drop b) = CsvReadResult.okR rec n)
    (hshort : rec.length < 8) :
    chunkLoopAux c (fuel + 1) carry b k =
      if k + 1 = 1 then
        (reconEvents (carry ++ c.take (b + n)) ++ (chunkLoopAux c fuel [] (b + n) (k + 1)).1,
         (chunkLoopAux c fuel [] (b + n) (k + 1)).2)
      else chunkLoopAux c fuel (c.drop b) (b + n) (k + 1) := by
  rw [chunkLoopAux, h]
  simp only [if_pos (Or.inr hshort : (b + n = c.length ∧ b < b + n) ∨ rec.length < 8)]

/-- C9, witness: the first record `[a,b]` of the scenario stream (2
fields, ending strictly inside the single chunk at offset 4 < 8) goes
through the dangling reconstruction, not the normal path. -/
theorem c9_witness :
    chunkLoopAux scenStream 9 [] 0 0 = ([Evt.emit ["a", "b"]], "c|d\n".toList) := by
  have h := c9_claim scenStream [] ["a", "b"] 4 0 0 8 (by decide) (by decide)
  rw [h]; decide

/-- C10: `NewCloudFileRequest` fails exactly on an empty bucket name
and otherwise stores the given bucket, file, path and modification time
unchanged; an empty file name is accepted at construction and rejected
only by `UploadFile`/`DownloadFile`, which return `ErrFileNameMissing`
without reaching the transfer. -/
theorem c10_claim (b f p : String) (m : Int) (cfr : CloudFileRequest)
    (tr : Except StorageErr Int) :
    ((∃ e, NewCloudFileRequest b f p m = Except.error e) ↔ b = "")
    ∧ (b ≠ "" → NewCloudFileRequest b f p m = Except.ok ⟨b, f, p, m⟩)
    ∧ (cfr.file = "" →
        UploadFile cfr tr = Except.error StorageErr.fileNameMissing
        ∧ DownloadFile cfr tr = Except.error StorageErr.fileNameMissing) := by
  refine ⟨⟨?_, ?_⟩, ?_, ?_⟩
  · rintro ⟨e, he⟩
    by_contra hb
    rw [NewCloudFileRequest, if_neg hb] at he
    cases he
  · intro hb
    rw [NewCloudFileRequest, if_pos hb]
    exact ⟨_, rfl⟩
  · intro hb
    rw [NewCloudFileRequest, if_neg hb]
  · intro hf
    exact ⟨by rw [UploadFile, if_pos hf], by rw [DownloadFile, if_pos hf]⟩

/-- C10, witness: a request with bucket `bkt` and empty file name is
constructed successfully and both transfers reject it. -/
theorem c10_witness :
    NewCloudFileRequest "bkt" "" "p" 0 = Except.ok ⟨"bkt", "", "p", 0⟩
    ∧ UploadFile ⟨"bkt", "", "p", 0⟩ (Except.ok 5) = Except.error StorageErr.fileNameMissing
    ∧ DownloadFile ⟨"bkt", "", "p", 0⟩ (Except.ok 5) = Except.error StorageErr.fileNameMissing := by
  have h := c10_claim "bkt" "" "p" 0 ⟨"bkt", "", "p", 0⟩ (Except.ok 5)
  exact ⟨h.2.1 (by decide), (h.2.2 rfl).1, (h.2.2 rfl).2⟩

end CloudStorage
